import Mathlib

/-!
# Verification of the NCCL process-group core (torch/lib/c10d/ProcessGroupNCCL.cpp)

This file gives a shallow embedding, in Lean, of the host-side logic of the
NCCL process group: tensor validation, split-size checking, the
gather/scatter flattener, the communicator cache and rendezvous, the
batched point-to-point driver, the blocking-wait synchronize loop, and the
watchdog iteration.  Device-side effects (actual CUDA streams, events and
NCCL kernels) are external collaborators; what is embedded is the host
state they leave behind: the communicator heap, the four process-group
caches, the key-value store and the work objects.

Machine integer subtleties of the source are embedded explicitly:
`std::accumulate(..., 0)` over `int64_t` split sizes narrows to a 32-bit
`int` at each step (`cppInt32Narrow`), and `std::stoi` semantics
(whitespace, sign, maximal digit run, trailing garbage ignored) are
embedded in `cppStoi`.  Error messages are embedded up to punctuation.
-/

/-- The host-visible metadata of an `at::Tensor`.  `storage` is an
identifier of the underlying storage object (two tensors alias iff the
identifiers are equal, which embeds `Storage::is_alias_of`);  `offset` is
`storage_offset()`, `numel` is `numel()`, `device` is `get_device()`. -/
structure ATTensor where
  storage : Nat := 0
  offset : Nat := 0
  numel : Nat := 0
  device : Nat := 0
  isCuda : Bool := true
  isSparse : Bool := false
  scalarType : Nat := 6
  sizes : List Nat := []
  isContiguous : Bool := true
deriving DecidableEq, Repr

instance : Inhabited ATTensor := ⟨{}⟩

/-- One `NCCLComm` object: the unique id bytes it was created from, the
(global rank, global size) it was created with, whether
`checkForNcclError` currently reports an asynchronous error, and whether
`ncclCommAbort` has been called on it. -/
structure CommState where
  uniqueId : List Nat := []
  globalRank : Nat := 0
  globalSize : Nat := 0
  asyncErr : Bool := false
  aborted : Bool := false
deriving DecidableEq, Repr

instance : Inhabited CommState := ⟨{}⟩

/-- The external key-value store: a map from keys to byte vectors.
`set` overwrites by shadowing; `get` returns the most recent value. -/
abbrev Store := List (String × List Nat)

def storeSet (s : Store) (k : String) (v : List Nat) : Store := (k, v) :: s

/-- Association-list lookup with decidable key equality; embeds the map
containers (`std::map`, `std::unordered_map`) of the source. -/
def assocGet {α β : Type} [DecidableEq α] : List (α × β) → α → Option β
  | [], _ => none
  | (k2, v) :: t, k => if k = k2 then some v else assocGet t k

def storeGet (s : Store) (k : String) : Option (List Nat) := assocGet s k

/-- `NCCLComm` objects are held by `shared_ptr` both from the caches and
from works; the heap maps a reference (pointer identity) to the current
state of the object, so that an abort through one holder is seen by all. -/
abbrev Heap := List (Nat × CommState)

def heapGet (h : Heap) (r : Nat) : Option CommState := assocGet h r

/-- `ncclComm->ncclCommAbort()` through reference `r`: the entry whose
reference matches has its aborted flag set. -/
def abortEntry (r : Nat) (p : Nat × CommState) : Nat × CommState :=
  if p.1 = r then (p.1, { p.2 with aborted := true }) else p

def abortRef (h : Heap) (r : Nat) : Heap := h.map (abortEntry r)

def abortRefs (h : Heap) (rs : List Nat) : Heap := rs.foldl abortRef h

/-- `checkForNCCLErrorsInternal`: some communicator in the group reports a
non-success asynchronous error. -/
def commsHaveError (h : Heap) (refs : List Nat) : Bool :=
  refs.any (fun r => ((heapGet h r).getD default).asyncErr)

/-- `std::unordered_set` emplace: insert if not already present. -/
def insertStr (l : List String) (s : String) : List String :=
  if l.contains s then l else l ++ [s]

def insertNat (l : List Nat) (n : Nat) : List Nat :=
  if l.contains n then l else l ++ [n]

/-- The whole-process state of one `ProcessGroupNCCL` instance, plus the
communicator heap and the external store it holds a reference to.
`streamSyncLog` records, per submission, the device key whose NCCL
streams were synchronized against the current streams (`syncStreams`). -/
structure PGState where
  rank : Nat := 0
  size : Nat := 1
  blockingWait : Bool := false
  opTimeout : Nat := 10000
  ncclCommCounter : Nat := 0
  comms : Heap := []
  nextRef : Nat := 0
  devNCCLCommMap : List (String × List Nat) := []
  ncclIdToCommMap : List (String × List Nat) := []
  abortedComms : List String := []
  usedDeviceIdxs : List Nat := []
  store : Store := []
  streamSyncLog : List String := []
deriving DecidableEq, Repr

/-- A `WorkNCCL` object as constructed by the drivers: the communicator
references it ran on, the policy fields copied from the process group,
and the `std::shared_ptr<Store> store_` member, which is null (`none`)
unless a driver assigns it. -/
structure WorkSt where
  commRefs : List Nat := []
  blockingWait : Bool := false
  opTimeout : Nat := 10000
  store : Option Store := none
deriving DecidableEq, Repr

/-!  ## Hex serialization of NCCL unique ids (`buildNcclUniqueIdStr`)  -/

/-- The digit sequence `operator<<(std::ostream, int)` produces under
`std::hex`: the minimal base-16 numeral of the value, lower-case.  Fueled
so that it evaluates by structural recursion; `n + 1` units of fuel are
always enough since the argument strictly shrinks at each division. -/
def hexCharsGo : Nat → Nat → List Char
  | 0, _ => []
  | fuel + 1, n =>
    if n < 16 then [Nat.digitChar n]
    else hexCharsGo fuel (n / 16) ++ [Nat.digitChar (n % 16)]

def hexChars (n : Nat) : List Char := hexCharsGo (n + 1) n

/-- `buildNcclUniqueIdStr`: stream each byte of the id through
`oss << std::hex << static_cast<int>(bytes[i])` and collect the result. -/
def buildNcclUniqueIdStr (bytes : List Nat) : String :=
  bytes.foldl (fun acc b => acc ++ String.mk (hexChars b)) ""

/-- `kNCCLAbortedCommStoreKey`. -/
def kNCCLAbortedCommStoreKey : String := "NCCLABORTEDCOMM"

/-- `getNcclAbortedCommStoreKey`. -/
def getNcclAbortedCommStoreKey (ncclIdStr : String) : String :=
  kNCCLAbortedCommStoreKey ++ ":" ++ ncclIdStr

/-- The abort-marker publication `store_->set(storeKey, {})`: the stored
value is the empty byte vector. -/
def publishAbort (s : Store) (ncclIdStr : String) : Store :=
  storeSet s (getNcclAbortedCommStoreKey ncclIdStr) []

/-- The specification's description of the serialized id: the
concatenation, in byte order, of the lower-case hexadecimal numeral of
each byte, with no separators and no 0x prefix.  Written independently of
the code via `Nat.digits`. -/
def specHexStr (n : Nat) : String :=
  if n = 0 then "0" else String.mk (((Nat.digits 16 n).map Nat.digitChar).reverse)

/-!  ## Validator (`check_gpu_tensors_multi`, `checkSplitSizes`)  -/

/-- The per-tensor loop of `check_gpu_tensors_multi`, threading the
`usedDevices` set used by the strict-mode distinct-device check. -/
def check_gpu_loop (first : ATTensor) (alltoallv : Bool) :
    List ATTensor → List Nat → Except String Unit
  | [], _ => .ok ()
  | t :: rest, used =>
    if !t.isCuda || t.isSparse then .error "Tensors must be CUDA and dense"
    else if t.scalarType ≠ first.scalarType then .error "Tensors must have identical type"
    else if !alltoallv && t.sizes ≠ first.sizes then .error "Tensors must have identical size"
    else if !t.isContiguous then .error "Tensors must be contiguous"
    else if !alltoallv then
      if used.contains t.device then .error "Tensors must be on distinct GPU devices"
      else check_gpu_loop first alltoallv rest (used ++ [t.device])
    else check_gpu_loop first alltoallv rest used

/-- `check_gpu_tensors_multi(tensors, alltoallv)`; `numGPUs` embeds
`at::cuda::getNumGPUs()`. -/
def check_gpu_tensors_multi (tensors : List ATTensor) (alltoallv : Bool) (numGPUs : Nat) :
    Except String Unit :=
  match tensors with
  | [] => .error "Tensor list must be nonempty"
  | first :: _ =>
    if !alltoallv && tensors.length > numGPUs then
      .error "Tensor list must not be larger than the number of available GPUs"
    else check_gpu_loop first alltoallv tensors []

def check_gpu_tensors (tensors : List ATTensor) (numGPUs : Nat) : Except String Unit :=
  check_gpu_tensors_multi tensors false numGPUs

/-- `tensor.size(0)` (dimension sizes are non-negative). -/
def size0 (t : ATTensor) : Int := ((t.sizes.headD 0 : Nat) : Int)

/-- Conversion of an `int64_t` value to `int` on assignment: reduction
into the signed 32-bit range, two's complement. -/
def cppInt32Narrow (x : Int) : Int := (x + 2 ^ 31) % 2 ^ 32 - 2 ^ 31

/-- `std::accumulate(split_sizes.begin(), split_sizes.end(), 0)`: the
accumulator has type `int`, so each addition is performed in `int64_t`
and then narrowed back to 32 bits when stored. -/
def cppAccumulate (l : List Int) : Int :=
  l.foldl (fun acc v => cppInt32Narrow (acc + v)) 0

/-- `checkSplitSizes(split_sizes, tensor, group_size)`. -/
def checkSplitSizes (split_sizes : List Int) (tensor : ATTensor) (group_size : Nat) :
    Except String Unit :=
  if split_sizes.length = 0 then
    if (size0 tensor).tmod (group_size : Int) ≠ 0 then
      .error "Tensor dim 0 does not divide equally across group size"
    else .ok ()
  else if split_sizes.length ≠ group_size then
    .error "Number of tensor splits not equal to group size"
  else if cppAccumulate split_sizes ≠ size0 tensor then
    .error "Split sizes does not match total dim 0 size"
  else .ok ()

/-!  ## `NCCL_BLOCKING_WAIT` parsing (constructor, lines 291-308)  -/

def isSpaceChar (c : Char) : Bool :=
  c == ' ' || c == '\t' || c == '\n' || c == Char.ofNat 11 || c == Char.ofNat 12 || c == '\r'

def isDigitChar (c : Char) : Bool := 48 ≤ c.toNat && c.toNat ≤ 57

/-- Consume the maximal leading digit run, accumulating its value. -/
def parseDigits : List Char → Nat → Nat
  | [], acc => acc
  | c :: rest, acc =>
    if isDigitChar c then parseDigits rest (acc * 10 + (c.toNat - 48)) else acc

/-- `std::stoi`: skip leading whitespace, take an optional sign, require
at least one digit, consume the maximal digit run and ignore everything
after it.  Returns `none` both when no digits are found
(`std::invalid_argument`) and when the value does not fit in `int`
(`std::out_of_range`); the source catches both the same way. -/
def cppStoi (s : String) : Option Int :=
  let cs := s.data.dropWhile isSpaceChar
  let signed : Bool × List Char :=
    match cs with
    | c :: rest => if c == '-' then (true, rest) else if c == '+' then (false, rest) else (false, cs)
    | [] => (false, [])
  match signed.2 with
  | [] => none
  | c :: _ =>
    if isDigitChar c then
      let n := parseDigits signed.2 0
      if signed.1 then (if n ≤ 2 ^ 31 then some (-(n : Int)) else none)
      else (if n ≤ 2 ^ 31 - 1 then some (n : Int) else none)
    else none

/-- The `NCCL_BLOCKING_WAIT` handling in the `ProcessGroupNCCL`
constructor: `blockingWait_` starts false; `val == 1` sets it, any other
non-zero parse throws, a failed parse throws (via the catch-all), and an
unset variable leaves the default. -/
def ncclParseBlockingWait (env : Option String) : Except String Bool :=
  match env with
  | none => .ok false
  | some s =>
    match cppStoi s with
    | none => .error "Invalid value for environment variable: NCCL_BLOCKING_WAIT"
    | some val =>
      if val = 1 then .ok true
      else if val ≠ 0 then .error "Invalid value for environment variable: NCCL_BLOCKING_WAIT"
      else .ok false

/-!  ## Flattener (`flatten_for_scatter_gather`)  -/

/-- A staging tensor produced by the flattener: either a view into an
existing storage (`at::empty({0}, ...).set_(storage, offset, size, {})`)
or a freshly allocated flat tensor, which by construction aliases no
pre-existing storage. -/
inductive FlatTensor where
  | view (storage : Nat) (offset : Nat) (size : Nat)
  | fresh (size : Nat)
deriving DecidableEq, Repr

/-- The `j`-loop of the `no_copy` check: every `tensor_lists[i][j]` must
alias `tensor_lists[i][0]` at offset
`tensor_lists[i][0].storage_offset() + j * tensor_lists[i][0].numel()`. -/
def noCopyCheckAGo (t0 : ATTensor) : Nat → List ATTensor → Bool
  | _, [] => true
  | j, t :: rest =>
    ((t.storage == t0.storage) && (t.offset == t0.offset + j * t0.numel)) &&
      noCopyCheckAGo t0 (j + 1) rest

def noCopyCheckA (ts : List ATTensor) : Bool :=
  noCopyCheckAGo (ts.headD default) 0 ts

/-- The `other`-tensor check: `no_copy` survives unless `other` aliases
the same storage at a different offset than
`tensor_lists[i][0].storage_offset() + rank * tensor_lists[i][0].numel()`. -/
def noCopyCheckB (other t0 : ATTensor) (rank : Nat) : Bool :=
  !((other.storage == t0.storage) && (other.offset != t0.offset + rank * t0.numel))

/-- Both `no_copy` alias predicates for one device, as the claims state
them: (a) over the whole tensor list and (b) for the paired tensor. -/
def deviceEligible (ts : List ATTensor) (other : ATTensor) (rank : Nat) : Bool :=
  noCopyCheckA ts && noCopyCheckB other (ts.headD default) rank

/-- The per-device loop of `flatten_for_scatter_gather`, with the devices
already paired with their `other` tensor.  The boolean argument is the
`no_copy` parameter, which the source mutates in place: once cleared by a
failing check it stays cleared for all later devices.  `.front()` — whose
behavior on an empty vector is undefined, a case unreachable whenever
`0 < world_size * num_devices` — is embedded as `headD`.  The fresh
branch size is that of the staging tensor the specification prescribes
for `newLikeFlat` (one flat tensor of `world_size * other[i].numel()`
elements), `newLikeFlat` itself being outside this translation unit. -/
def flattenGo (ws nd rank : Nat) : List (List ATTensor × ATTensor) → Bool →
    Except String (List FlatTensor)
  | [], _ => .ok []
  | (ts, oth) :: rest, nc =>
    if ts.length ≠ ws * nd then
      .error "Tensor list input to scatter-gather must match number of collective participants"
    else if (ts.headD default).device ≠ oth.device then
      .error "Corresponding input-output tensors to scatter-gather must all reside on the same device"
    else if ts.any (fun t => t.numel != oth.numel) then
      .error "All tensor operands to scatter-gather must have the same size"
    else
      match flattenGo ws nd rank rest
          (nc && noCopyCheckA ts && noCopyCheckB oth (ts.headD default) rank) with
      | .error e => .error e
      | .ok fl =>
        .ok ((if nc && noCopyCheckA ts && noCopyCheckB oth (ts.headD default) rank then
                FlatTensor.view (ts.headD default).storage (ts.headD default).offset
                  (ws * oth.numel)
              else FlatTensor.fresh (ws * oth.numel)) :: fl)

/-- `flatten_for_scatter_gather(tensor_lists, other, world_size, rank, no_copy)`. -/
def flatten_for_scatter_gather (tensor_lists : List (List ATTensor)) (other : List ATTensor)
    (world_size rank : Nat) (no_copy : Bool) : Except String (List FlatTensor) :=
  if tensor_lists.length ≠ other.length then
    .error "Tensor list operands to scatter-gather must have the same length"
  else flattenGo world_size tensor_lists.length rank (tensor_lists.zip other) no_copy

/-!  ## The `allgather` post hook (lines 941-962)  -/

/-- `outputFlattened[i][j].storage().is_alias_of(outputTensors[i][j].storage())`:
a view aliases exactly the storage it was set to; a fresh staging tensor
aliases no user tensor. -/
def aliasOfFlat (f : FlatTensor) (t : ATTensor) : Bool :=
  match f with
  | .view s _ _ => s == t.storage
  | .fresh _ => false

/-- The skip condition of the post-hook copy loop: the output tensor
already aliases the flattened storage at the matching rank-slot offset. -/
def skipCond (flatI : FlatTensor) (outsI : List ATTensor) (j : Nat) : Bool :=
  aliasOfFlat flatI (outsI.getD j default) &&
    ((outsI.getD j default).offset ==
      (outsI.getD 0 default).offset + (outsI.getD j default).numel * j)

/-- The inner `j`-loop of the post hook.  On the first `j` whose skip
condition holds the source executes `break`, abandoning the remaining
slots of this device; otherwise slot `j` is copied
(`outputTensors[i][j].copy_(outputFlattened[i][j])`) and the loop
continues.  Returns the list of copied slots. -/
def postCopyGo (flatI : FlatTensor) (outsI : List ATTensor) : Nat → Nat → List Nat
  | _, 0 => []
  | j, fuel + 1 =>
    if skipCond flatI outsI j then [] else j :: postCopyGo flatI outsI (j + 1) fuel

/-- The full post hook of `allgather`: outer loop over devices
(`outputTensors.size()`), inner loop bounded by `outputTensors[0].size()`
as in the source.  Returns the set of `(device, rank-slot)` pairs that
receive a copy from the flattened staging tensor. -/
def allgatherPost (outs : List (List ATTensor)) (flat : List FlatTensor) : List (Nat × Nat) :=
  (List.range outs.length).flatMap (fun i =>
    (postCopyGo (flat.getD i (.fresh 0)) (outs.getD i []) 0 (outs.headD []).length).map
      (fun j => (i, j)))

/-!  ## Communicator cache and rendezvous  -/

/-- `getKeyFromDevices`: comma-separated device indices in caller order. -/
def getKeyFromDevices (devices : List Nat) : String :=
  match devices with
  | [] => ""
  | d :: rest => rest.foldl (fun acc d2 => acc ++ "," ++ toString d2) (toString d)

/-- `NCCL_UNIQUE_ID_BYTES`, the fixed vendor-defined width of a unique id. -/
def NCCL_UNIQUE_ID_BYTES : Nat := 128

/-- `broadcastUniqueNCCLID`: the store key is the decimal string of the
post-incremented per-process-group counter; rank 0 publishes the id
bytes, every other rank fetches them and checks the byte width
(`TORCH_CHECK(vec.size() == NCCL_UNIQUE_ID_BYTES)`).  `store->get` on an
absent key blocks forever in the source; the terminating model reports it
as an error. -/
def broadcastUniqueNCCLID (pg : PGState) (ncclID : List Nat) :
    Except String (PGState × List Nat) :=
  let storeKey := toString pg.ncclCommCounter
  let pg1 := { pg with ncclCommCounter := pg.ncclCommCounter + 1 }
  if pg1.rank = 0 then
    .ok ({ pg1 with store := storeSet pg1.store storeKey ncclID }, ncclID)
  else
    match storeGet pg1.store storeKey with
    | none => .error "store get blocked forever: rendezvous key never published"
    | some v =>
      if v.length = NCCL_UNIQUE_ID_BYTES then .ok (pg1, v)
      else .error "TORCH_CHECK failed: vec.size() == NCCL_UNIQUE_ID_BYTES"

/-- `getNCCLComm(devicesKey, devices)`.  `freshId` stands for the id that
`ncclGetUniqueId` mints on rank 0 (an external source of randomness); it
is unused on other ranks.  On a cache miss, one communicator per device
is created with global size `size * devices.length` and global rank
`rank * devices.length + i`, and all four caches are updated.  Collective
streams and sync events, which no claim touches, are represented only by
`streamSyncLog` at submission time. -/
def getNCCLComm (pg : PGState) (devicesKey : String) (devices : List Nat)
    (freshId : List Nat) : Except String (PGState × List Nat) :=
  if devicesKey = "" then
    .error "Not able to create or get the NCCL Communicator since the GPU devices are not known"
  else
    let pg0 := { pg with usedDeviceIdxs := devices.foldl insertNat pg.usedDeviceIdxs }
    match assocGet pg0.devNCCLCommMap devicesKey with
    | some refs => .ok (pg0, refs)
    | none =>
      match broadcastUniqueNCCLID pg0 freshId with
      | .error e => .error e
      | .ok (pg1, ncclID) =>
        let n := devices.length
        let newRefs := (List.range n).map (fun i => pg1.nextRef + i)
        let newComms := (List.range n).map (fun i =>
          (pg1.nextRef + i,
           { uniqueId := ncclID, globalSize := pg1.size * n,
             globalRank := pg1.rank * n + i, asyncErr := false, aborted := false : CommState }))
        .ok ({ pg1 with
                comms := pg1.comms ++ newComms,
                nextRef := pg1.nextRef + n,
                ncclIdToCommMap :=
                  pg1.ncclIdToCommMap ++ [(buildNcclUniqueIdStr ncclID, newRefs)],
                devNCCLCommMap := pg1.devNCCLCommMap ++ [(devicesKey, newRefs)] },
              newRefs)

/-!  ## Collective drivers  -/

/-- The tail of the generic `collective` driver: communicator lookup,
stream synchronization, grouped submission (device-side), and work
construction.  The constructed work copies `blockingWait_`, `opTimeout_`
and — crucially — `store_` from the process group (line 744). -/
def collectiveDriver (pg : PGState) (inputs : List ATTensor) (freshId : List Nat) :
    Except String (PGState × WorkSt) :=
  let devices := inputs.map (·.device)
  let key := getKeyFromDevices devices
  match getNCCLComm pg key devices freshId with
  | .error e => .error e
  | .ok (pg1, commRefs) =>
    let pg2 := { pg1 with streamSyncLog := pg1.streamSyncLog ++ [key] }
    .ok (pg2, { commRefs := commRefs, blockingWait := pg2.blockingWait,
                opTimeout := pg2.opTimeout, store := some pg2.store })

/-- `allreduce`: validate, then run the generic driver in place. -/
def allreduce (pg : PGState) (tensors : List ATTensor) (numGPUs : Nat)
    (freshId : List Nat) : Except String (PGState × WorkSt) :=
  match check_gpu_tensors tensors numGPUs with
  | .error e => .error e
  | .ok _ => collectiveDriver pg tensors freshId

/-- `batchedp2p`: the batched send/recv specialization used by the
all-to-all entry points.  Identical to the generic driver up to the
grouped loop, but the work-construction loop at lines 825-831 copies only
`blockingWait_` and `opTimeout_`: the `store_` member of the work is
never assigned and stays a null `shared_ptr` (`none`). -/
def batchedp2p (pg : PGState) (_send_lengths _recv_lengths : List Nat) (_datatype : Nat)
    (inputs : List ATTensor) (freshId : List Nat) : Except String (PGState × WorkSt) :=
  let devices := inputs.map (·.device)
  let key := getKeyFromDevices devices
  match getNCCLComm pg key devices freshId with
  | .error e => .error e
  | .ok (pg1, commRefs) =>
    let pg2 := { pg1 with streamSyncLog := pg1.streamSyncLog ++ [key] }
    .ok (pg2, { commRefs := commRefs, blockingWait := pg2.blockingWait,
                opTimeout := pg2.opTimeout, store := none })

/-- `ncclDataType` lookup (`getNcclDataType`): the fixed seven-entry dtype
table; any other scalar type is an unsupported-type error. -/
def getNcclDataType (t : Nat) : Except String Nat :=
  if t = 1 then .ok 0
  else if t = 0 then .ok 1
  else if t = 6 then .ok 7
  else if t = 7 then .ok 8
  else if t = 3 then .ok 2
  else if t = 4 then .ok 4
  else if t = 5 then .ok 6
  else .error "Unsupported data type for NCCL process group"

/-- `ProcessGroupNCCL::alltoall`: the group-size check on both tensor
lists is the first statement of the function, ahead of validation,
communicator lookup, stream synchronization and submission; on mismatch
the call throws with no state touched.  The per-peer pointer marshalling
is address arithmetic consumed only by the device-side send/recv calls;
the host-visible part (the per-peer element counts) is kept. -/
def alltoall (pg : PGState) (outputTensors inputTensors : List ATTensor)
    (numGPUs : Nat) (freshId : List Nat) : Except String (PGState × WorkSt) :=
  if inputTensors.length ≠ pg.size || outputTensors.length ≠ pg.size then
    .error "Number of input or output tensors are not equal to group size"
  else
    match check_gpu_tensors_multi inputTensors true numGPUs with
    | .error e => .error e
    | .ok _ =>
      match check_gpu_tensors_multi outputTensors true numGPUs with
      | .error e => .error e
      | .ok _ =>
        let send_lengths := inputTensors.map (·.numel)
        let recv_lengths := outputTensors.map (·.numel)
        match getNcclDataType ((inputTensors.headD default).scalarType) with
        | .error e => .error e
        | .ok dt =>
          batchedp2p pg send_lengths recv_lengths dt [inputTensors.headD default] freshId

/-!  ## `WorkNCCL::synchronize`: the blocking-wait timeout branch  -/

inductive SyncErr where
  | timedOut
  | nullStoreDeref
  | asyncError
deriving DecidableEq, Repr

/-- The timeout branch of the busy-wait loop: for each communicator of
the work, abort it and publish its abort marker through `store_`, then
throw "Operation timed out!".  Dereferencing a null `store_` is fatal
before any marker can be published (`nullStoreDeref`). -/
def timeoutAbortGo : Heap → Option Store → List Nat → Heap × Option Store × SyncErr
  | heap, st, [] => (heap, st, .timedOut)
  | heap, st, r :: rest =>
    let heap2 := abortRef heap r
    match st with
    | none => (heap2, none, .nullStoreDeref)
    | some s =>
      timeoutAbortGo heap2
        (some (publishAbort s (buildNcclUniqueIdStr (((heapGet heap2 r).getD default).uniqueId))))
        rest

def timeoutAbort (heap : Heap) (w : WorkSt) : Heap × Option Store × SyncErr :=
  timeoutAbortGo heap w.store w.commRefs

inductive SyncEvent where
  | continues
  | raises (e : SyncErr)
  | returns
deriving DecidableEq, Repr

def workHasAsyncErr (heap : Heap) (w : WorkSt) : Bool :=
  w.commRefs.any (fun r => ((heapGet heap r).getD default).asyncErr)

/-- One pass of the blocking-wait loop of `synchronize`, at a point where
the completion events report `eventsReady` and `elapsed` milliseconds
have passed since the work start.  If `isCompleted()` holds the loop
exits (re-raising a captured asynchronous error); otherwise a timeout
triggers the abort-and-publish branch, an asynchronous error is
re-raised, and else the loop sleeps and continues. -/
def syncIteration (heap : Heap) (w : WorkSt) (eventsReady : Bool) (elapsed : Nat) :
    Heap × Option Store × SyncEvent :=
  if workHasAsyncErr heap w || eventsReady then
    (heap, w.store, if workHasAsyncErr heap w then .raises .asyncError else .returns)
  else if elapsed > w.opTimeout then
    match timeoutAbort heap w with
    | (h2, st2, e) => (h2, st2, .raises e)
  else (heap, w.store, .continues)

/-!  ## Watchdog (`ncclCommWatchdogInternal`), one loop iteration  -/

def commIdsOf (h : Heap) (refs : List Nat) : List String :=
  refs.map (fun r => buildNcclUniqueIdStr ((heapGet h r).getD default).uniqueId)

/-- Phase 1 (under the cache mutex): scan every cached communicator
group, collecting all unique ids; a group with an asynchronous error is
aborted — and its ids recorded — only when blocking wait is enabled.  The
cache itself is never modified. -/
def watchdogPhase1 (bw : Bool) : Heap → List (String × List Nat) →
    List String → List String → Heap × List String × List String
  | h, [], all, ab => (h, all, ab)
  | h, e :: rest, all, ab =>
    let ids := commIdsOf h e.2
    let all2 := ids.foldl insertStr all
    if commsHaveError h e.2 && bw then
      watchdogPhase1 bw (abortRefs h e.2) rest all2 (ids.foldl insertStr ab)
    else watchdogPhase1 bw h rest all2 ab

/-- Phase 2a (blocking wait only): record the freshly aborted ids in the
locally-aborted set and publish their abort markers to the store. -/
def watchdogPhase2a (pg : PGState) (abortedCommIds : List String) : PGState :=
  abortedCommIds.foldl (fun acc id =>
    { acc with abortedComms := insertStr acc.abortedComms id,
               store := publishAbort acc.store id }) pg

/-- Phase 2b (blocking wait only): for every known id not yet locally
aborted, do a bounded wait on its abort marker; if the marker is present,
resolve the id through the reverse index and abort that group.  A store
timeout, and a failing internal assert on the reverse lookup, are both
swallowed by the surrounding catch. -/
def watchdogPhase2b (pg : PGState) (allCommIds : List String) : PGState :=
  allCommIds.foldl (fun acc id =>
    if acc.abortedComms.contains id then acc
    else if (storeGet acc.store (getNcclAbortedCommStoreKey id)).isSome then
      match assocGet acc.ncclIdToCommMap id with
      | some refs =>
        { acc with comms := abortRefs acc.comms refs,
                   abortedComms := insertStr acc.abortedComms id }
      | none => acc
    else acc) pg

/-- One iteration of the watchdog loop body. -/
def ncclCommWatchdogIteration (pg : PGState) : PGState :=
  let r := watchdogPhase1 pg.blockingWait pg.comms pg.devNCCLCommMap [] []
  let pg1 := { pg with comms := r.1 }
  if pg.blockingWait then watchdogPhase2b (watchdogPhase2a pg1 r.2.2) r.2.1
  else pg1

/-!  ## Concrete scenarios used by counterexamples and witnesses  -/

/-- A 2-rank process group with blocking wait enabled and a 500 ms
operation timeout, before any collective has run. -/
def pgC1 : PGState := { rank := 0, size := 2, blockingWait := true, opTimeout := 500 }

def tInC1a : ATTensor := { storage := 10, numel := 4, device := 0, scalarType := 6, sizes := [4] }
def tInC1b : ATTensor := { storage := 11, numel := 4, device := 0, scalarType := 6, sizes := [4] }
def tOutC1a : ATTensor := { storage := 12, numel := 4, device := 0, scalarType := 6, sizes := [4] }
def tOutC1b : ATTensor := { storage := 13, numel := 4, device := 0, scalarType := 6, sizes := [4] }

/-- An `alltoall` call on `pgC1` (2 peers, 1 device), via `batchedp2p`. -/
def c1Run : Except String (PGState × WorkSt) :=
  alltoall pgC1 [tOutC1a, tOutC1b] [tInC1a, tInC1b] 4 [7, 7]

def c1WorkOpt : Option WorkSt := c1Run.toOption.map (fun p => p.2)

/-- The blocking-wait loop pass of `synchronize` for the `alltoall` work,
with events not yet ready and 501 ms elapsed (past the 500 ms timeout). -/
def c1SyncOpt : Option (Heap × Option Store × SyncEvent) :=
  c1Run.toOption.map (fun p => syncIteration p.1.comms p.2 false 501)

/-- The same scenario through the generic `collective` driver
(an `allreduce` on one tensor of `pgC1`). -/
def c1bRun : Except String (PGState × WorkSt) := allreduce pgC1 [tInC1a] 4 [7, 7]

def c1bSyncOpt : Option (Heap × Option Store × SyncEvent) :=
  c1bRun.toOption.map (fun p => syncIteration p.1.comms p.2 false 501)

/-- A process group whose only cached communicator group "0" holds one
communicator (reference 0) that reports an asynchronous error; blocking
wait disabled. -/
def pgWatchNB : PGState :=
  { blockingWait := false,
    comms := [(0, { uniqueId := [1], asyncErr := true })],
    devNCCLCommMap := [("0", [0])],
    ncclIdToCommMap := [("1", [0])] }

/-- The same state with blocking wait enabled. -/
def pgWatchB : PGState :=
  { blockingWait := true,
    comms := [(0, { uniqueId := [1], asyncErr := true })],
    devNCCLCommMap := [("0", [0])],
    ncclIdToCommMap := [("1", [0])] }

/-- Flattener counterexample data: two devices, `world_size = 1`,
`rank = 0`.  Device 0 fails the `no_copy` alias check (its two tensors
live in different storages); device 1 satisfies both alias predicates. -/
def tFlatA : ATTensor := { storage := 1, offset := 0, numel := 4, device := 0 }
def tFlatB : ATTensor := { storage := 2, offset := 4, numel := 4, device := 0 }
def tFlatC : ATTensor := { storage := 5, offset := 0, numel := 4, device := 1 }
def tFlatD : ATTensor := { storage := 5, offset := 4, numel := 4, device := 1 }
def tFlatO0 : ATTensor := { storage := 3, offset := 0, numel := 4, device := 0 }
def tFlatO1 : ATTensor := { storage := 6, offset := 0, numel := 4, device := 1 }

/-- Allgather-witness data: one device, `world_size = 2`, fresh staging. -/
def tAgU : ATTensor := { storage := 20, offset := 0, numel := 3, device := 0 }
def tAgV : ATTensor := { storage := 21, offset := 0, numel := 3, device := 0 }
def tAgIn : ATTensor := { storage := 22, offset := 0, numel := 3, device := 0 }

def agOutsW : List (List ATTensor) := [[tAgU, tAgV]]
def agInsW : List ATTensor := [tAgIn]
def agFlatW : List FlatTensor := [FlatTensor.fresh 6]

/-- A tensor whose dimension-0 size is 0, for the split-size overflow
counterexample. -/
def tC6 : ATTensor := { sizes := [0] }

/-- A fresh 2-rank process group on rank 1 whose store already holds a
rendezvous value of the wrong width under the counter key "0". -/
def pgC9 : PGState := { rank := 0, size := 2 }

/-- The spec-side abort-marker key: prefix, colon, then the concatenation
in byte order of each byte's lower-case hex numeral. -/
def specAbortKey (bytes : List Nat) : String :=
  "NCCLABORTEDCOMM:" ++ String.join (bytes.map specHexStr)

/-!  ## Helper lemmas  -/

theorem hexCharsGo_eq (fuel : Nat) :
    ∀ n, n < fuel →
      hexCharsGo fuel n = if n = 0 then [Char.ofNat 48]
        else ((Nat.digits 16 n).map Nat.digitChar).reverse := by
  induction fuel with
  | zero => intro n hn; omega
  | succ fuel ih =>
    intro n hn
    rw [hexCharsGo]
    by_cases h16 : n < 16
    · rw [if_pos h16]
      by_cases h0 : n = 0
      · subst h0; rfl
      · rw [if_neg h0, Nat.digits_def' (by norm_num : 1 < 16) (Nat.pos_of_ne_zero h0),
          Nat.div_eq_of_lt h16]
        simp [Nat.mod_eq_of_lt h16]
    · rw [if_neg h16]
      have h0 : n ≠ 0 := by omega
      have hdiv : n / 16 < n := Nat.div_lt_self (by omega) (by omega)
      rw [if_neg h0, Nat.digits_def' (by norm_num : 1 < 16) (Nat.pos_of_ne_zero h0)]
      rw [ih (n / 16) (by omega), if_neg (by omega : n / 16 ≠ 0)]
      simp

theorem hexChars_eq (n : Nat) :
    hexChars n = if n = 0 then [Char.ofNat 48]
      else ((Nat.digits 16 n).map Nat.digitChar).reverse :=
  hexCharsGo_eq (n + 1) n (by omega)

theorem specHexStr_eq (n : Nat) : String.mk (hexChars n) = specHexStr n := by
  rw [hexChars_eq, specHexStr]
  by_cases h : n = 0
  · subst h; rfl
  · rw [if_neg h, if_neg h]

theorem string_foldl_append (l : List String) :
    ∀ (a b : String),
      l.foldl (fun r s => r ++ s) (a ++ b) = a ++ l.foldl (fun r s => r ++ s) b := by
  induction l with
  | nil => intro a b; rfl
  | cons s t ih =>
    intro a b
    show t.foldl _ ((a ++ b) ++ s) = a ++ t.foldl _ (b ++ s)
    rw [String.append_assoc, ih]

theorem string_join_cons (s : String) (l : List String) :
    String.join (s :: l) = s ++ String.join l := by
  show l.foldl (fun r t => r ++ t) ("" ++ s) = s ++ l.foldl (fun r t => r ++ t) ""
  have h1 : ("" ++ s : String) = s ++ "" := by simp
  rw [h1, string_foldl_append]

theorem buildNcclUniqueIdStr_eq (bytes : List Nat) :
    buildNcclUniqueIdStr bytes = String.join (bytes.map specHexStr) := by
  have aux : ∀ (bs : List Nat) (acc : String),
      bs.foldl (fun a b => a ++ String.mk (hexChars b)) acc =
        acc ++ String.join (bs.map specHexStr) := by
    intro bs
    induction bs with
    | nil => intro acc; simp [String.join]
    | cons b t ih =>
      intro acc
      show t.foldl _ (acc ++ String.mk (hexChars b)) = _
      rw [ih, String.append_assoc, specHexStr_eq, List.map_cons, string_join_cons]
  have h := aux bytes ""
  rw [buildNcclUniqueIdStr, h]
  simp

theorem cppInt32Narrow_add_left (a b : Int) :
    cppInt32Narrow (cppInt32Narrow a + b) = cppInt32Narrow (a + b) := by
  have h31 : (2 : Int) ^ 31 = 2147483648 := by norm_num
  have h32 : (2 : Int) ^ 32 = 4294967296 := by norm_num
  simp only [cppInt32Narrow, h31, h32]
  omega

theorem cppAccumulate_eq (l : List Int) : cppAccumulate l = cppInt32Narrow l.sum := by
  have aux : ∀ (t : List Int) (a : Int),
      t.foldl (fun acc v => cppInt32Narrow (acc + v)) (cppInt32Narrow a) =
        cppInt32Narrow (a + t.sum) := by
    intro t
    induction t with
    | nil => intro a; simp
    | cons v rest ih =>
      intro a
      show rest.foldl _ (cppInt32Narrow (cppInt32Narrow a + v)) = _
      rw [cppInt32Narrow_add_left, ih, List.sum_cons]
      ring_nf
  have h0 : (0 : Int) = cppInt32Narrow 0 := by norm_num [cppInt32Narrow]
  rw [cppAccumulate, h0, aux]
  norm_num

/-!  ## Claim theorems  -/

/-- C8: for every unique id, the abort-marker store key is
`NCCLABORTEDCOMM:` followed by the concatenation, in byte order, of the
lower-case hexadecimal numeral of each byte (no separators, no 0x
prefix, and — as the source prints via plain `std::hex` — no zero
padding), and the value published under that key is the empty byte
vector. -/
theorem abort_marker_key_spec (bytes : List Nat) (s : Store) :
    getNcclAbortedCommStoreKey (buildNcclUniqueIdStr bytes) = specAbortKey bytes ∧
    storeGet (publishAbort s (buildNcclUniqueIdStr bytes))
      (getNcclAbortedCommStoreKey (buildNcclUniqueIdStr bytes)) = some [] := by
  constructor
  · rw [getNcclAbortedCommStoreKey, buildNcclUniqueIdStr_eq, specAbortKey,
      kNCCLAbortedCommStoreKey]
    have hpre : ("NCCLABORTEDCOMM" ++ ":" : String) = "NCCLABORTEDCOMM:" := by decide
    rw [hpre]
  · simp [publishAbort, storeSet, storeGet, assocGet]

/-- C1 (code bug): a Work produced by the batched point-to-point path
(`alltoall` → `batchedp2p`) carries a null `store_` — `batchedp2p` never
assigns it, unlike `collective` — so when blocking wait hits the timeout,
the branch that should publish abort markers dereferences a null store
pointer after aborting the first communicator, and nothing is published.
The same scenario through the generic `collective` driver (`allreduce`)
publishes the marker `NCCLABORTEDCOMM:77` with an empty value and raises
the timeout error as the claim describes. -/
theorem alltoall_batchedp2p_timeout_null_store :
    c1WorkOpt.map (fun w => w.blockingWait) = some true ∧
    c1WorkOpt.map (fun w => w.store) = some none ∧
    c1SyncOpt.map (fun r => r.2.2) = some (SyncEvent.raises SyncErr.nullStoreDeref) ∧
    c1SyncOpt.map (fun r => r.2.1) = some none ∧
    c1bSyncOpt.map (fun r => r.2.2) = some (SyncEvent.raises SyncErr.timedOut) ∧
    c1bSyncOpt.map (fun r => storeGet (r.2.1.getD []) "NCCLABORTEDCOMM:77") =
      some (some []) :=
  ⟨rfl, rfl, rfl, rfl, rfl, rfl⟩

theorem check_gpu_loop_ok (first : ATTensor) (a : Bool) (ts : List ATTensor) :
    ∀ (used : List Nat),
      check_gpu_loop first a ts used = .ok () ↔
        ((∀ t ∈ ts, t.isCuda = true ∧ t.isSparse = false ∧ t.scalarType = first.scalarType ∧
            (a = false → t.sizes = first.sizes) ∧ t.isContiguous = true) ∧
         (a = false → ((ts.map (fun t => t.device)).Nodup ∧ ∀ t ∈ ts, t.device ∉ used))) := by
  induction ts with
  | nil => intro used; simp [check_gpu_loop]
  | cons t rest ih =>
    intro used
    rw [check_gpu_loop]
    by_cases h1 : (!t.isCuda || t.isSparse) = true
    · rw [if_pos h1]
      constructor
      · intro habs; exact Except.noConfusion habs
      · rintro ⟨hall, -⟩
        obtain ⟨hcu, hsp, -⟩ := hall t (List.mem_cons_self t rest)
        rw [hcu, hsp] at h1
        exact Bool.noConfusion h1
    · have hcu : t.isCuda = true := by
        cases hb : t.isCuda
        · exact absurd (by simp [hb]) h1
        · rfl
      have hsp : t.isSparse = false := by
        cases hb : t.isSparse
        · rfl
        · exact absurd (by simp [hb]) h1
      rw [if_neg h1]
      by_cases h2 : t.scalarType = first.scalarType
      case neg =>
        rw [if_pos h2]
        constructor
        · intro habs; exact Except.noConfusion habs
        · rintro ⟨hall, -⟩
          obtain ⟨-, -, hsc, -⟩ := hall t (List.mem_cons_self t rest)
          exact absurd hsc h2
      case pos =>
        rw [if_neg (not_not_intro h2)]
        by_cases h3 : (!a && decide (t.sizes ≠ first.sizes)) = true
        · rw [if_pos h3]
          simp only [Bool.and_eq_true, Bool.not_eq_true', decide_eq_true_eq] at h3
          constructor
          · intro habs; exact Except.noConfusion habs
          · rintro ⟨hall, -⟩
            obtain ⟨-, -, -, hsz, -⟩ := hall t (List.mem_cons_self t rest)
            exact absurd (hsz h3.1) h3.2
        · rw [if_neg h3]
          by_cases h4 : (!t.isContiguous) = true
          · rw [if_pos h4]
            constructor
            · intro habs; exact Except.noConfusion habs
            · rintro ⟨hall, -⟩
              obtain ⟨-, -, -, -, hct⟩ := hall t (List.mem_cons_self t rest)
              rw [hct] at h4
              exact Bool.noConfusion h4
          · have hct : t.isContiguous = true := by
              cases hb : t.isContiguous
              · exact absurd (by simp [hb]) h4
              · rfl
            rw [if_neg h4]
            cases a with
            | true =>
              rw [if_neg (by simp : ¬ ((!true) = true))]
              rw [ih used]
              constructor
              · rintro ⟨hrest, -⟩
                refine ⟨?_, fun hfalse => Bool.noConfusion hfalse⟩
                intro x hx
                rcases List.mem_cons.mp hx with rfl | hx'
                · exact ⟨hcu, hsp, h2, fun hfalse => Bool.noConfusion hfalse, hct⟩
                · exact hrest x hx'
              · rintro ⟨hall, -⟩
                exact ⟨fun x hx => hall x (List.mem_cons_of_mem t hx),
                  fun hfalse => Bool.noConfusion hfalse⟩
            | false =>
              rw [if_pos (by simp : ((!false) = true))]
              have hsz : t.sizes = first.sizes := by
                by_contra hne
                exact h3 (by simp [hne])
              by_cases h6 : used.contains t.device = true
              · rw [if_pos h6]
                have hdev : t.device ∈ used := by
                  rw [List.contains_iff_exists_mem_beq] at h6
                  obtain ⟨d, hd, hbeq⟩ := h6
                  have hde : t.device = d := by simpa using hbeq
                  rw [hde]; exact hd
                constructor
                · intro habs; exact Except.noConfusion habs
                · rintro ⟨-, hnd⟩
                  obtain ⟨-, hused⟩ := hnd rfl
                  exact absurd hdev (hused t (List.mem_cons_self t rest))
              · rw [if_neg h6]
                have hdev : t.device ∉ used := by
                  intro hmem
                  exact h6 (by
                    rw [List.contains_iff_exists_mem_beq]
                    exact ⟨t.device, hmem, by simp⟩)
                rw [ih (used ++ [t.device])]
                constructor
                · rintro ⟨hrest, himp⟩
                  obtain ⟨hnd, hacc⟩ := himp rfl
                  constructor
                  · intro x hx
                    rcases List.mem_cons.mp hx with rfl | hx'
                    · exact ⟨hcu, hsp, h2, fun _ => hsz, hct⟩
                    · exact hrest x hx'
                  · intro _
                    constructor
                    · rw [List.map_cons, List.nodup_cons]
                      refine ⟨?_, hnd⟩
                      intro hmm
                      obtain ⟨x, hx, hxdev⟩ := List.mem_map.mp hmm
                      have hx2 := hacc x hx
                      rw [List.mem_append] at hx2
                      exact hx2 (Or.inr (List.mem_singleton.mpr hxdev))
                    · intro x hx
                      rcases List.mem_cons.mp hx with rfl | hx'
                      · exact hdev
                      · intro hmem
                        have hx2 := hacc x hx'
                        rw [List.mem_append] at hx2
                        exact hx2 (Or.inl hmem)
                · rintro ⟨hall, himp⟩
                  obtain ⟨hnd, hused⟩ := himp rfl
                  rw [List.map_cons, List.nodup_cons] at hnd
                  refine ⟨fun x hx => hall x (List.mem_cons_of_mem t hx), fun _ => ⟨hnd.2, ?_⟩⟩
                  intro x hx hmem
                  rw [List.mem_append] at hmem
                  rcases hmem with hmem | hmem
                  · exact hused x (List.mem_cons_of_mem t hx) hmem
                  · rw [List.mem_singleton] at hmem
                    exact hnd.1 (List.mem_map.mpr ⟨x, hx, hmem⟩)

/-- C4: `check_gpu_tensors_multi` succeeds exactly when the tensor list
is non-empty, (strict mode) no longer than the local GPU count, every
tensor is device-resident, dense, of the first tensor's scalar type, of
the first tensor's shape (strict mode), contiguous, and (strict mode) the
device indices are pairwise distinct.  The embedded validator is a pure
function of its arguments, so a failure has no effect on any cache or
store. -/
theorem check_gpu_tensors_multi_spec (tensors : List ATTensor) (alltoallv : Bool)
    (numGPUs : Nat) :
    check_gpu_tensors_multi tensors alltoallv numGPUs = .ok () ↔
      (tensors ≠ [] ∧
       (alltoallv = false → tensors.length ≤ numGPUs) ∧
       (∀ t ∈ tensors,
          t.isCuda = true ∧ t.isSparse = false ∧
          t.scalarType = (tensors.headD default).scalarType ∧
          (alltoallv = false → t.sizes = (tensors.headD default).sizes) ∧
          t.isContiguous = true) ∧
       (alltoallv = false → (tensors.map (fun t => t.device)).Nodup)) := by
  rcases tensors with _ | ⟨first, rest⟩
  · simp [check_gpu_tensors_multi]
  · rw [check_gpu_tensors_multi]
    by_cases hlen : (!alltoallv && decide ((first :: rest).length > numGPUs)) = true
    · rw [if_pos hlen]
      simp only [Bool.and_eq_true, Bool.not_eq_true', decide_eq_true_eq] at hlen
      constructor
      · intro habs; exact Except.noConfusion habs
      · rintro ⟨-, hle, -⟩
        exact absurd (hle hlen.1) (by omega)
    · rw [if_neg hlen]
      rw [check_gpu_loop_ok]
      have hlen' : alltoallv = false → (first :: rest).length ≤ numGPUs := by
        intro ha
        by_contra hgt
        apply hlen
        simp only [ha, Bool.not_false, Bool.true_and, decide_eq_true_eq]
        simp only [List.length_cons] at hgt ⊢
        omega
      simp only [List.headD_cons]
      constructor
      · rintro ⟨hall, hnd⟩
        exact ⟨by simp, hlen', hall, fun ha => (hnd ha).1⟩
      · rintro ⟨-, -, hall, hnd⟩
        exact ⟨hall, fun ha => ⟨hnd ha, fun t _ => List.not_mem_nil _⟩⟩

/-- C6 counterexample: with a single split of value `2^32` (representable
in `int64_t`), a group size of 1 and a tensor whose dimension-0 size is 0,
the true sum of the splits (`2^32`) differs from `t.size(0)` (`0`), so
the claim requires a failure — but `checkSplitSizes` succeeds, because
`std::accumulate` with the `int`-typed initial value `0` narrows the sum
to 32 bits, where it wraps to 0. -/
theorem checkSplitSizes_overflow_counterexample :
    checkSplitSizes [(4294967296 : Int)] tC6 1 = .ok () ∧
      List.sum [(4294967296 : Int)] ≠ size0 tC6 := by
  constructor
  · rfl
  · norm_num [size0, tC6]

/-- C6 (amended): `checkSplitSizes` with empty splits fails iff
`t.size(0)` is not divisible by the group size; with non-empty splits it
fails iff the split count differs from the group size or the sum of the
splits — computed in 32-bit two's-complement arithmetic, i.e. reduced
into `[-2^31, 2^31)` — differs from `t.size(0)`. -/
theorem checkSplitSizes_spec (split_sizes : List Int) (tensor : ATTensor)
    (group_size : Nat) (hg : 0 < group_size) :
    checkSplitSizes split_sizes tensor group_size = .ok () ↔
      (if split_sizes = [] then (size0 tensor).tmod (group_size : Int) = 0
       else split_sizes.length = group_size ∧ cppInt32Narrow split_sizes.sum = size0 tensor) := by
  have hg' : (0 : Nat) < group_size := hg
  rcases split_sizes with _ | ⟨v, rest⟩
  · simp only [checkSplitSizes, List.length_nil, eq_self_iff_true, if_true]
    by_cases hmod : (size0 tensor).tmod (group_size : Int) = 0
    · rw [if_neg (not_not_intro hmod)]
      simp [hmod]
    · rw [if_pos hmod]
      simp [hmod]
  · rw [checkSplitSizes]
    rw [if_neg (show ¬ ((v :: rest).length = 0) by simp)]
    rw [if_neg (show ¬ ((v :: rest) = ([] : List Int)) by simp)]
    by_cases hcnt : (v :: rest).length = group_size
    · rw [if_neg (not_not_intro hcnt)]
      rw [cppAccumulate_eq]
      by_cases hsum : cppInt32Narrow (v :: rest).sum = size0 tensor
      · rw [if_neg (not_not_intro hsum)]
        exact ⟨fun _ => ⟨hcnt, hsum⟩, fun _ => rfl⟩
      · rw [if_pos hsum]
        constructor
        · intro habs; exact Except.noConfusion habs
        · rintro ⟨-, habs⟩; exact absurd habs hsum
    · rw [if_pos hcnt]
      constructor
      · intro habs; exact Except.noConfusion habs
      · rintro ⟨habs, -⟩; exact absurd habs hcnt

theorem checkSplitSizes_spec_witness :
    checkSplitSizes [(2 : Int), 3] tC6 2 = .ok () ↔
      (if ([(2 : Int), 3] : List Int) = [] then (size0 tC6).tmod ((2 : Nat) : Int) = 0
       else ([(2 : Int), 3] : List Int).length = 2 ∧
         cppInt32Narrow ([(2 : Int), 3] : List Int).sum = size0 tC6) :=
  checkSplitSizes_spec [(2 : Int), 3] tC6 2 (by omega)

/-- C7 counterexample: the environment value `"01"` is neither `"1"` nor
`"0"`, so the claim requires a fatal configuration error — but the
constructor parses it with `std::stoi`, which yields the integer 1, and
blocking wait is silently enabled. -/
theorem blocking_wait_env_counterexample :
    ncclParseBlockingWait (some "01") = .ok true ∧ "01" ≠ "1" ∧ "01" ≠ "0" :=
  ⟨rfl, by decide, by decide⟩

/-- C7 (amended): the variable is parsed with `std::stoi` semantics
(leading whitespace and a sign accepted, trailing characters ignored):
a parse yielding integer 1 enables blocking wait, a parse yielding 0 —
like an unset variable — leaves it disabled, and a value that fails to
parse or parses to any other integer is a fatal configuration error. -/
theorem blocking_wait_env_spec (env : Option String) :
    (ncclParseBlockingWait env = .ok true ↔ ∃ s, env = some s ∧ cppStoi s = some 1) ∧
    (ncclParseBlockingWait env = .ok false ↔
      (env = none ∨ ∃ s, env = some s ∧ cppStoi s = some 0)) ∧
    ((∃ e, ncclParseBlockingWait env = .error e) ↔
      (∃ s, env = some s ∧
        (cppStoi s = none ∨ ∃ val, cppStoi s = some val ∧ val ≠ 1 ∧ val ≠ 0))) := by
  rcases env with _ | s
  · refine ⟨by simp [ncclParseBlockingWait], by simp [ncclParseBlockingWait], ?_⟩
    simp [ncclParseBlockingWait]
  · simp only [ncclParseBlockingWait]
    rcases h : cppStoi s with _ | v
    · simp [h]
    · by_cases h1 : v = 1
      · subst h1
        simp [h]
      · by_cases h0 : v = 0
        · subst h0
          simp [h]
        · simp [h, h1, h0]

/-- C10: `alltoall` rejects a call whose input or output tensor-list
length differs from the group size with an error thrown before
validation, communicator lookup, stream synchronization or submission;
since the embedded call only produces a successor state on success, the
error leaves every cache, the stream log and the store untouched. -/
theorem alltoall_size_mismatch_rejected (pg : PGState)
    (outputTensors inputTensors : List ATTensor) (numGPUs : Nat) (freshId : List Nat)
    (h : inputTensors.length ≠ pg.size ∨ outputTensors.length ≠ pg.size) :
    alltoall pg outputTensors inputTensors numGPUs freshId =
      .error "Number of input or output tensors are not equal to group size" := by
  rw [alltoall]
  rw [if_pos]
  rcases h with h | h <;> simp [h]

theorem alltoall_size_mismatch_rejected_witness :
    alltoall pgC1 [tOutC1a] [tInC1a, tInC1b] 4 [7, 7] =
      .error "Number of input or output tensors are not equal to group size" :=
  alltoall_size_mismatch_rejected pgC1 [tOutC1a] [tInC1a, tInC1b] 4 [7, 7]
    (Or.inr (by decide))

theorem assocGet_cons {α β : Type} [DecidableEq α] (k2 : α) (v : β) (t : List (α × β))
    (k : α) : assocGet ((k2, v) :: t) k = if k = k2 then some v else assocGet t k := rfl

theorem heapGet_abortRef (h : Heap) (r x : Nat) :
    heapGet (abortRef h r) x =
      if x = r then (heapGet h x).map (fun c => { c with aborted := true })
      else heapGet h x := by
  induction h with
  | nil =>
    simp only [abortRef, List.map_nil, heapGet, assocGet, Option.map_none']
    split <;> rfl
  | cons p t ih =>
    obtain ⟨k, c⟩ := p
    simp only [heapGet] at ih ⊢
    have hmap : abortRef ((k, c) :: t) r = abortEntry r (k, c) :: abortRef t r := rfl
    rw [hmap]
    by_cases hkr : k = r
    · subst hkr
      have he : abortEntry k (k, c) = (k, { c with aborted := true }) := by
        unfold abortEntry
        rw [if_pos rfl]
      rw [he]
      simp only [assocGet_cons]
      by_cases hxk : x = k
      · simp [hxk]
      · simp [hxk, ih]
    · have he : abortEntry r (k, c) = (k, c) := by
        unfold abortEntry
        rw [if_neg hkr]
      rw [he]
      simp only [assocGet_cons]
      by_cases hxk : x = k
      · subst hxk
        simp [hkr]
      · simp [hxk, ih]

theorem heapGet_abortRefs (rs : List Nat) :
    ∀ (h : Heap) (x : Nat),
      heapGet (abortRefs h rs) x =
        if x ∈ rs then (heapGet h x).map (fun c => { c with aborted := true })
        else heapGet h x := by
  induction rs with
  | nil => intro h x; simp [abortRefs]
  | cons r rest ih =>
    intro h x
    show heapGet (abortRefs (abortRef h r) rest) x = _
    rw [ih, heapGet_abortRef]
    by_cases hmem : x ∈ rest
    · rw [if_pos hmem, if_pos (List.mem_cons_of_mem r hmem)]
      by_cases hxr : x = r
      · rw [if_pos hxr]
        cases heapGet h x <;> rfl
      · rw [if_neg hxr]
    · rw [if_neg hmem]
      by_cases hxr : x = r
      · rw [if_pos hxr, if_pos (by rw [hxr]; exact List.mem_cons_self r rest)]
      · rw [if_neg hxr, if_neg (by simp [hxr, hmem])]

theorem asyncErr_abortRefs (h : Heap) (rs : List Nat) (x : Nat) :
    ((heapGet (abortRefs h rs) x).getD default).asyncErr =
      ((heapGet h x).getD default).asyncErr := by
  rw [heapGet_abortRefs]
  split
  · cases heapGet h x <;> rfl
  · rfl

theorem isSome_abortRefs (h : Heap) (rs : List Nat) (x : Nat) :
    (heapGet (abortRefs h rs) x).isSome = (heapGet h x).isSome := by
  rw [heapGet_abortRefs]
  split
  · cases heapGet h x <;> rfl
  · rfl

theorem commsHaveError_abortRefs (h : Heap) (rs refs : List Nat) :
    commsHaveError (abortRefs h rs) refs = commsHaveError h refs := by
  simp only [commsHaveError]
  have : (fun r => ((heapGet (abortRefs h rs) r).getD default).asyncErr) =
      (fun r => ((heapGet h r).getD default).asyncErr) := by
    funext r; exact asyncErr_abortRefs h rs r
  rw [this]

theorem aborted_mono_abortRefs (h : Heap) (rs : List Nat) (x : Nat)
    (hx : ((heapGet h x).getD default).aborted = true) :
    ((heapGet (abortRefs h rs) x).getD default).aborted = true := by
  rw [heapGet_abortRefs]
  split
  · cases hh : heapGet h x
    · rw [hh] at hx; exact hx
    · rfl
  · exact hx

theorem abortRefs_sets (h : Heap) (rs : List Nat) (x : Nat) (hmem : x ∈ rs)
    (hsome : (heapGet h x).isSome = true) :
    ((heapGet (abortRefs h rs) x).getD default).aborted = true := by
  rw [heapGet_abortRefs, if_pos hmem]
  cases hh : heapGet h x
  · rw [hh] at hsome; exact Bool.noConfusion hsome
  · rfl

theorem watchdogPhase1_nonblocking (entries : List (String × List Nat)) :
    ∀ (h : Heap) (all ab : List String),
      (watchdogPhase1 false h entries all ab).1 = h ∧
      (watchdogPhase1 false h entries all ab).2.2 = ab := by
  induction entries with
  | nil => intro h all ab; exact ⟨rfl, rfl⟩
  | cons e rest ih =>
    intro h all ab
    rw [watchdogPhase1]
    rw [if_neg (by simp)]
    exact ih h _ ab

theorem watchdogPhase1_aborted_mono (entries : List (String × List Nat)) (bw : Bool) :
    ∀ (h : Heap) (all ab : List String) (x : Nat),
      ((heapGet h x).getD default).aborted = true →
      ((heapGet (watchdogPhase1 bw h entries all ab).1 x).getD default).aborted = true := by
  induction entries with
  | nil => intro h all ab x hx; exact hx
  | cons e rest ih =>
    intro h all ab x hx
    rw [watchdogPhase1]
    by_cases hc : (commsHaveError h e.2 && bw) = true
    · rw [if_pos hc]
      exact ih _ _ _ x (aborted_mono_abortRefs h e.2 x hx)
    · rw [if_neg hc]
      exact ih _ _ _ x hx

theorem watchdogPhase1_isSome (entries : List (String × List Nat)) (bw : Bool) :
    ∀ (h : Heap) (all ab : List String) (x : Nat),
      (heapGet (watchdogPhase1 bw h entries all ab).1 x).isSome = (heapGet h x).isSome := by
  induction entries with
  | nil => intro h all ab x; rfl
  | cons e rest ih =>
    intro h all ab x
    rw [watchdogPhase1]
    by_cases hc : (commsHaveError h e.2 && bw) = true
    · rw [if_pos hc]
      rw [ih _ _ _ x, isSome_abortRefs]
    · rw [if_neg hc]
      exact ih _ _ _ x

theorem watchdogPhase1_aborts (entries : List (String × List Nat)) :
    ∀ (h : Heap) (all ab : List String) (key : String) (refs : List Nat),
      (key, refs) ∈ entries →
      commsHaveError h refs = true →
      (∀ r ∈ refs, (heapGet h r).isSome = true) →
      ∀ r ∈ refs, ((heapGet (watchdogPhase1 true h entries all ab).1 r).getD default).aborted = true := by
  induction entries with
  | nil => intro h all ab key refs hmem; exact absurd hmem (List.not_mem_nil _)
  | cons e rest ih =>
    intro h all ab key refs hmem herr hsome r hr
    rcases List.mem_cons.mp hmem with heq | hmem'
    · rw [watchdogPhase1]
      have he : e.2 = refs := by rw [← heq]
      rw [if_pos (by rw [he, herr]; rfl)]
      apply watchdogPhase1_aborted_mono
      rw [he]
      exact abortRefs_sets h refs r hr (hsome r hr)
    · rw [watchdogPhase1]
      by_cases hc : (commsHaveError h e.2 && true) = true
      · rw [if_pos hc]
        refine ih _ _ _ key refs hmem' ?_ ?_ r hr
        · rw [commsHaveError_abortRefs, herr]
        · intro x hx
          rw [isSome_abortRefs]
          exact hsome x hx
      · rw [if_neg hc]
        exact ih _ _ _ key refs hmem' herr hsome r hr

theorem watchdogPhase2a_fields (ids : List String) :
    ∀ (pg : PGState),
      (watchdogPhase2a pg ids).comms = pg.comms ∧
      (watchdogPhase2a pg ids).devNCCLCommMap = pg.devNCCLCommMap := by
  induction ids with
  | nil => intro pg; exact ⟨rfl, rfl⟩
  | cons i rest ih =>
    intro pg
    show (watchdogPhase2a _ rest).comms = _ ∧ (watchdogPhase2a _ rest).devNCCLCommMap = _
    exact ⟨(ih _).1, (ih _).2⟩

theorem watchdogPhase2b_devMap (ids : List String) :
    ∀ (pg : PGState), (watchdogPhase2b pg ids).devNCCLCommMap = pg.devNCCLCommMap := by
  induction ids with
  | nil => intro pg; rfl
  | cons i rest ih =>
    intro pg
    rw [watchdogPhase2b]
    simp only [List.foldl_cons]
    rw [show ∀ l pg', List.foldl _ pg' l = watchdogPhase2b pg' l from fun l pg' => rfl]
    by_cases h1 : pg.abortedComms.contains i = true
    · rw [if_pos h1, ih]
    · rw [if_neg h1]
      by_cases h2 : (storeGet pg.store (getNcclAbortedCommStoreKey i)).isSome = true
      · rw [if_pos h2]
        cases hl : assocGet pg.ncclIdToCommMap i
        · rw [ih]
        · rw [ih]
      · rw [if_neg h2, ih]

theorem watchdogPhase2b_aborted_mono (ids : List String) :
    ∀ (pg : PGState) (x : Nat),
      ((heapGet pg.comms x).getD default).aborted = true →
      ((heapGet (watchdogPhase2b pg ids).comms x).getD default).aborted = true := by
  induction ids with
  | nil => intro pg x hx; exact hx
  | cons i rest ih =>
    intro pg x hx
    rw [watchdogPhase2b]
    simp only [List.foldl_cons]
    rw [show ∀ l pg', List.foldl _ pg' l = watchdogPhase2b pg' l from fun l pg' => rfl]
    by_cases h1 : pg.abortedComms.contains i = true
    · rw [if_pos h1]; exact ih pg x hx
    · rw [if_neg h1]
      by_cases h2 : (storeGet pg.store (getNcclAbortedCommStoreKey i)).isSome = true
      · rw [if_pos h2]
        cases hl : assocGet pg.ncclIdToCommMap i
        · exact ih pg x hx
        · exact ih _ x (aborted_mono_abortRefs _ _ x hx)
      · rw [if_neg h2]; exact ih pg x hx

/-- C2: the watchdog's blocking-wait asymmetry.  With blocking wait
disabled one watchdog iteration is the identity on the whole process
state — even when cached groups report asynchronous errors, no
communicator is aborted, nothing is published to the store, and the
locally-aborted set is untouched.  With blocking wait enabled, every
communicator of a group that reports an asynchronous error is aborted,
and the group's entry nevertheless remains in the communicator cache. -/
theorem watchdog_abort_asymmetry :
    (∀ pg : PGState, pg.blockingWait = false → ncclCommWatchdogIteration pg = pg) ∧
    (∀ (pg : PGState) (key : String) (refs : List Nat),
       pg.blockingWait = true →
       (key, refs) ∈ pg.devNCCLCommMap →
       commsHaveError pg.comms refs = true →
       (∀ r ∈ refs, (heapGet pg.comms r).isSome = true) →
       ((∀ r ∈ refs,
           ((heapGet (ncclCommWatchdogIteration pg).comms r).getD default).aborted = true) ∧
        (key, refs) ∈ (ncclCommWatchdogIteration pg).devNCCLCommMap)) := by
  constructor
  · intro pg hbw
    obtain ⟨rank, size, bw, ot, cnt, comms, nr, dev, idm, ab, used, st, log⟩ := pg
    simp only at hbw
    subst hbw
    rw [ncclCommWatchdogIteration]
    simp only [Bool.false_eq_true, if_false]
    have h1 := (watchdogPhase1_nonblocking dev comms [] []).1
    simp only at h1 ⊢
    rw [h1]
  · intro pg key refs hbw hmem herr hsome
    obtain ⟨rank, size, bw, ot, cnt, comms, nr, dev, idm, ab, used, st, log⟩ := pg
    simp only at hbw hmem herr hsome
    subst hbw
    rw [ncclCommWatchdogIteration]
    simp only [if_true]
    constructor
    · intro r hr
      apply watchdogPhase2b_aborted_mono
      rw [(watchdogPhase2a_fields _ _).1]
      exact watchdogPhase1_aborts dev comms [] [] key refs hmem herr hsome r hr
    · rw [watchdogPhase2b_devMap, (watchdogPhase2a_fields _ _).2]
      exact hmem

/-- Witness for C2 at a concrete state: one cached group `"0"` holding
communicator 0, which reports an asynchronous error. -/
theorem watchdog_abort_asymmetry_witness :
    ncclCommWatchdogIteration pgWatchNB = pgWatchNB ∧
    ((∀ r ∈ [0],
        ((heapGet (ncclCommWatchdogIteration pgWatchB).comms r).getD default).aborted = true) ∧
     ("0", [0]) ∈ (ncclCommWatchdogIteration pgWatchB).devNCCLCommMap) :=
  ⟨watchdog_abort_asymmetry.1 pgWatchNB rfl,
   watchdog_abort_asymmetry.2 pgWatchB "0" [0] rfl (by decide) (by decide)
     (by intro r hr; fin_cases hr; rfl)⟩

theorem forall_le_succ (P : Nat → Prop) (i : Nat) :
    (∀ k, k ≤ i + 1 → P k) ↔ P 0 ∧ ∀ k, k ≤ i → P (k + 1) := by
  constructor
  · intro h
    exact ⟨h 0 (by omega), fun k hk => h (k + 1) (by omega)⟩
  · rintro ⟨h0, h⟩ k hk
    cases k with
    | zero => exact h0
    | succ k => exact h k (by omega)

theorem headD_eq_getD {α : Type} (l : List α) (d : α) : l.headD d = l.getD 0 d := by
  cases l <;> rfl

theorem zip_getD {α β : Type} (d1 : α) (d2 : β) (l1 : List α) :
    ∀ (l2 : List β) (k : Nat), k < l1.length → k < l2.length →
      (l1.zip l2).getD k (d1, d2) = (l1.getD k d1, l2.getD k d2) := by
  induction l1 with
  | nil => intro l2 k hk1 hk2; simp at hk1
  | cons a t1 ih =>
    intro l2 k hk1 hk2
    cases l2 with
    | nil => simp at hk2
    | cons b t2 =>
      cases k with
      | zero => rfl
      | succ k =>
        simp only [List.zip_cons_cons, List.getD_cons_succ]
        exact ih t2 k (by simpa using hk1) (by simpa using hk2)

theorem noCopyCheckAGo_iff (t0 : ATTensor) (l : List ATTensor) :
    ∀ j, noCopyCheckAGo t0 j l = true ↔
      ∀ k, k < l.length →
        (l.getD k default).storage = t0.storage ∧
        (l.getD k default).offset = t0.offset + (j + k) * t0.numel := by
  induction l with
  | nil => intro j; simp [noCopyCheckAGo]
  | cons t rest ih =>
    intro j
    rw [noCopyCheckAGo]
    rw [Bool.and_eq_true, Bool.and_eq_true]
    rw [ih (j + 1)]
    constructor
    · rintro ⟨⟨hs, ho⟩, hrest⟩ k hk
      cases k with
      | zero =>
        refine ⟨by simpa using hs, ?_⟩
        have ho' : t.offset = t0.offset + j * t0.numel := by simpa using ho
        simpa using ho'
      | succ k =>
        have hr := hrest k (by simpa using hk)
        have harith : j + 1 + k = j + (k + 1) := by omega
        rw [harith] at hr
        simpa using hr
    · intro hall
      refine ⟨⟨?_, ?_⟩, ?_⟩
      · have := (hall 0 (by simp)).1
        simpa using this
      · have := (hall 0 (by simp)).2
        simp only [List.getD_cons_zero, Nat.add_zero] at this
        simpa using this
      · intro k hk
        have := hall (k + 1) (by simpa using hk)
        have harith : j + (k + 1) = j + 1 + k := by omega
        rw [harith] at this
        simpa using this

theorem mem_postCopyGo (flatI : FlatTensor) (outsI : List ATTensor) :
    ∀ (fuel j0 j : Nat),
      j ∈ postCopyGo flatI outsI j0 fuel ↔
        (j0 ≤ j ∧ j < j0 + fuel ∧
          ∀ k, j0 ≤ k → k ≤ j → skipCond flatI outsI k = false) := by
  intro fuel
  induction fuel with
  | zero =>
    intro j0 j
    simp only [postCopyGo, List.not_mem_nil, false_iff]
    omega
  | succ fuel ih =>
    intro j0 j
    rw [postCopyGo]
    by_cases hskip : skipCond flatI outsI j0 = true
    · rw [if_pos hskip]
      constructor
      · intro hj; exact absurd hj (List.not_mem_nil j)
      · rintro ⟨h1, -, h3⟩
        rw [h3 j0 (Nat.le_refl j0) h1] at hskip
        exact Bool.noConfusion hskip
    · rw [if_neg hskip]
      rw [List.mem_cons, ih (j0 + 1)]
      constructor
      · rintro (rfl | ⟨h1, h2, h3⟩)
        · refine ⟨Nat.le_refl j, by omega, fun k hk1 hk2 => ?_⟩
          have hkj : k = j := by omega
          subst hkj
          simpa using hskip
        · refine ⟨by omega, by omega, fun k hk1 hk2 => ?_⟩
          rcases Nat.eq_or_lt_of_le hk1 with rfl | hk1'
          · simpa using hskip
          · exact h3 k (by omega) hk2
      · rintro ⟨h1, h2, h3⟩
        rcases Nat.eq_or_lt_of_le h1 with rfl | hlt
        · exact Or.inl rfl
        · exact Or.inr ⟨by omega, by omega, fun k hk1 hk2 => h3 k (by omega) hk2⟩

theorem mem_allgatherPost (outs : List (List ATTensor)) (flat : List FlatTensor)
    (i j : Nat) :
    (i, j) ∈ allgatherPost outs flat ↔
      (i < outs.length ∧
       j ∈ postCopyGo (flat.getD i (.fresh 0)) (outs.getD i []) 0 (outs.headD []).length) := by
  rw [allgatherPost, List.mem_flatMap]
  constructor
  · rintro ⟨i2, hi2, hmem⟩
    rw [List.mem_map] at hmem
    obtain ⟨j2, hj2, heq⟩ := hmem
    obtain ⟨rfl, rfl⟩ : i2 = i ∧ j2 = j :=
      ⟨congrArg Prod.fst heq, congrArg Prod.snd heq⟩
    exact ⟨List.mem_range.mp hi2, hj2⟩
  · rintro ⟨hi, hmem⟩
    exact ⟨i, List.mem_range.mpr hi, List.mem_map.mpr ⟨j, hmem, rfl⟩⟩

theorem flattenGo_facts (ws nd rank : Nat) :
    ∀ (pairs : List (List ATTensor × ATTensor)) (nc : Bool) (flat : List FlatTensor),
      flattenGo ws nd rank pairs nc = .ok flat →
      flat.length = pairs.length ∧
      ∀ i, i < pairs.length →
        ((pairs.getD i ([], default)).1.length = ws * nd ∧
         (∀ t ∈ (pairs.getD i ([], default)).1,
            t.numel = (pairs.getD i ([], default)).2.numel) ∧
         (flat.getD i (.fresh 0) =
            FlatTensor.view ((pairs.getD i ([], default)).1.headD default).storage
              ((pairs.getD i ([], default)).1.headD default).offset
              (ws * (pairs.getD i ([], default)).2.numel) ↔
          (nc = true ∧ ∀ k, k ≤ i →
            deviceEligible (pairs.getD k ([], default)).1 (pairs.getD k ([], default)).2 rank
              = true)) ∧
         (∀ s o sz, flat.getD i (.fresh 0) = FlatTensor.view s o sz →
            flat.getD i (.fresh 0) =
              FlatTensor.view ((pairs.getD i ([], default)).1.headD default).storage
                ((pairs.getD i ([], default)).1.headD default).offset
                (ws * (pairs.getD i ([], default)).2.numel)) ∧
         ((¬ (nc = true ∧ ∀ k, k ≤ i →
             deviceEligible (pairs.getD k ([], default)).1 (pairs.getD k ([], default)).2 rank
               = true)) →
           flat.getD i (.fresh 0) =
             FlatTensor.fresh (ws * (pairs.getD i ([], default)).2.numel))) := by
  intro pairs
  induction pairs with
  | nil =>
    intro nc flat h
    simp only [flattenGo] at h
    injection h with h
    subst h
    exact ⟨rfl, fun i hi => absurd hi (Nat.not_lt_zero i)⟩
  | cons pr rest ih =>
    obtain ⟨ts, oth⟩ := pr
    intro nc flat h
    simp only [flattenGo] at h
    by_cases hlen : ts.length = ws * nd
    swap
    · rw [if_pos hlen] at h
      exact Except.noConfusion h
    rw [if_neg (not_not_intro hlen)] at h
    by_cases hdev : (ts.headD default).device = oth.device
    swap
    · rw [if_pos hdev] at h
      exact Except.noConfusion h
    rw [if_neg (not_not_intro hdev)] at h
    by_cases hnum : ts.any (fun t => t.numel != oth.numel) = true
    · rw [if_pos hnum] at h
      exact Except.noConfusion h
    rw [if_neg hnum] at h
    have hnum' : ∀ t ∈ ts, t.numel = oth.numel := by
      intro t ht
      by_contra hne
      exact hnum (List.any_eq_true.mpr ⟨t, ht, by simpa using hne⟩)
    cases hrec : flattenGo ws nd rank rest
        (nc && noCopyCheckA ts && noCopyCheckB oth (ts.headD default) rank) with
    | error e =>
      simp only [hrec] at h
      exact Except.noConfusion h
    | ok fl =>
      simp only [hrec] at h
      injection h with h
      subst h
      obtain ⟨ihlen, ihfacts⟩ := ih _ fl hrec
      constructor
      · simp only [List.length_cons, ihlen]
      · intro i hi
        cases i with
        | zero =>
          simp only [List.getD_cons_zero]
          have hfa0 : (∀ k, k ≤ 0 →
              deviceEligible ((((ts, oth) :: rest).getD k ([], default))).1
                ((((ts, oth) :: rest).getD k ([], default))).2 rank = true) ↔
              deviceEligible ts oth rank = true := by
            constructor
            · intro h2
              have := h2 0 (Nat.le_refl 0)
              simpa using this
            · intro h2 k hk
              have hk0 : k = 0 := by omega
              subst hk0
              simpa using h2
          by_cases hbc : (nc && noCopyCheckA ts && noCopyCheckB oth (ts.headD default) rank)
              = true
          · rw [if_pos hbc]
            rw [Bool.and_eq_true, Bool.and_eq_true] at hbc
            have helig : deviceEligible ts oth rank = true := by
              rw [deviceEligible, Bool.and_eq_true]
              exact ⟨hbc.1.2, hbc.2⟩
            refine ⟨hlen, hnum', ?_, ?_, ?_⟩
            · exact ⟨fun _ => ⟨hbc.1.1, hfa0.mpr helig⟩, fun _ => rfl⟩
            · intro s o sz _
              rfl
            · intro hneg
              exact absurd ⟨hbc.1.1, hfa0.mpr helig⟩ hneg
          · rw [if_neg hbc]
            have hnelig : ¬ (nc = true ∧ deviceEligible ts oth rank = true) := by
              rintro ⟨hnc, helig⟩
              apply hbc
              rw [deviceEligible, Bool.and_eq_true] at helig
              rw [Bool.and_eq_true, Bool.and_eq_true]
              exact ⟨⟨hnc, helig.1⟩, helig.2⟩
            refine ⟨hlen, hnum', ?_, ?_, ?_⟩
            · constructor
              · intro habs
                exact FlatTensor.noConfusion habs
              · rintro ⟨hnc, hfa⟩
                exact absurd ⟨hnc, hfa0.mp hfa⟩ hnelig
            · intro s o sz habs
              exact FlatTensor.noConfusion habs
            · intro _
              rfl
        | succ i =>
          have hi' : i < rest.length := by simpa using hi
          have hf := ihfacts i hi'
          simp only [List.getD_cons_succ]
          have htrans : ((nc && noCopyCheckA ts && noCopyCheckB oth (ts.headD default) rank)
                = true ∧
              (∀ k, k ≤ i →
                deviceEligible ((rest.getD k ([], default))).1
                  ((rest.getD k ([], default))).2 rank = true)) ↔
              (nc = true ∧ ∀ k, k ≤ i + 1 →
                deviceEligible ((((ts, oth) :: rest).getD k ([], default))).1
                  ((((ts, oth) :: rest).getD k ([], default))).2 rank = true) := by
            rw [forall_le_succ]
            simp only [List.getD_cons_zero, List.getD_cons_succ]
            constructor
            · rintro ⟨hb, hrest⟩
              rw [Bool.and_eq_true, Bool.and_eq_true] at hb
              refine ⟨hb.1.1, ?_, hrest⟩
              rw [deviceEligible, Bool.and_eq_true]
              exact ⟨hb.1.2, hb.2⟩
            · rintro ⟨hnc, helig0, hrest⟩
              rw [deviceEligible, Bool.and_eq_true] at helig0
              refine ⟨?_, hrest⟩
              rw [Bool.and_eq_true, Bool.and_eq_true]
              exact ⟨⟨hnc, helig0.1⟩, helig0.2⟩
          refine ⟨hf.1, hf.2.1, ?_, hf.2.2.2.1, ?_⟩
          · rw [← htrans]
            exact hf.2.2.1
          · rw [← htrans]
            exact hf.2.2.2.2

/-- C3 counterexample: two devices, `world_size = 1`, `rank = 0`,
`no_copy` requested.  Device 1's tensors satisfy both alias predicates
(a) and (b), so the claim requires a view for device 1 — but because
device 0 fails the check and the `no_copy` flag is a single mutable
parameter, device 1 nevertheless receives a fresh allocation. -/
theorem flatten_no_copy_cross_device_leak :
    flatten_for_scatter_gather [[tFlatA, tFlatB], [tFlatC, tFlatD]] [tFlatO0, tFlatO1]
        1 0 true = .ok [FlatTensor.fresh 4, FlatTensor.fresh 4] ∧
    deviceEligible [tFlatC, tFlatD] tFlatO1 0 = true :=
  ⟨rfl, rfl⟩

/-- C3 (amended): for well-formed input with `no_copy` requested, the
result for device `i` is a view of `lists[i][0]`'s storage at
`lists[i][0]`'s offset, sized `world_size * other[i].numel`, iff the
alias predicates (a) and (b) hold for device `i` and for every earlier
device as well (the `no_copy` flag, once cleared by a failing device,
stays cleared for the rest of the loop); otherwise the call still
succeeds and device `i` receives a freshly allocated flat tensor of size
`world_size * other[i].numel`. -/
theorem flatten_no_copy_characterization
    (lists : List (List ATTensor)) (other : List ATTensor) (ws rank : Nat)
    (flat : List FlatTensor)
    (h : flatten_for_scatter_gather lists other ws rank true = .ok flat) :
    other.length = lists.length ∧ flat.length = lists.length ∧
    ∀ i, i < lists.length →
      ((flat.getD i (.fresh 0) =
          FlatTensor.view ((lists.getD i []).headD default).storage
            ((lists.getD i []).headD default).offset
            (ws * (other.getD i default).numel) ↔
        ∀ k, k ≤ i → deviceEligible (lists.getD k []) (other.getD k default) rank = true) ∧
       ((¬ ∀ k, k ≤ i →
           deviceEligible (lists.getD k []) (other.getD k default) rank = true) →
         flat.getD i (.fresh 0) = FlatTensor.fresh (ws * (other.getD i default).numel))) := by
  rw [flatten_for_scatter_gather] at h
  by_cases hlen : lists.length = other.length
  swap
  · rw [if_pos hlen] at h
    exact Except.noConfusion h
  rw [if_neg (not_not_intro hlen)] at h
  obtain ⟨hflen, hfacts⟩ := flattenGo_facts ws lists.length rank (lists.zip other) true flat h
  have hz : ∀ k, k < lists.length →
      (lists.zip other).getD k ([], default) = (lists.getD k [], other.getD k default) := by
    intro k hk
    exact zip_getD [] default lists other k hk (by omega)
  have hiz : ∀ k, k < lists.length → k < (lists.zip other).length := by
    intro k hk
    rw [List.length_zip]
    omega
  refine ⟨hlen.symm, ?_, ?_⟩
  · rw [hflen, List.length_zip, hlen, Nat.min_self]
  · intro i hi
    have hfi := hfacts i (hiz i hi)
    simp only [hz i hi] at hfi
    have hchain : (∀ k, k ≤ i →
        deviceEligible ((lists.zip other).getD k ([], default)).1
          ((lists.zip other).getD k ([], default)).2 rank = true) ↔
        (∀ k, k ≤ i → deviceEligible (lists.getD k []) (other.getD k default) rank = true) := by
      constructor
      · intro hh k hk
        have hkk := hh k hk
        simp only [hz k (by omega)] at hkk
        exact hkk
      · intro hh k hk
        have hkk := hh k hk
        simp only [hz k (by omega)]
        exact hkk
    constructor
    · refine Iff.trans hfi.2.2.1 ?_
      constructor
      · rintro ⟨-, hch⟩
        exact hchain.mp hch
      · intro hch
        exact ⟨trivial, hchain.mpr hch⟩
    · intro hneg
      apply hfi.2.2.2.2
      rintro ⟨-, hch⟩
      exact hneg (hchain.mp hch)

/-- Witness for C3's amended characterization at a concrete
one-device eligible input. -/
theorem flatten_no_copy_characterization_witness :
    [FlatTensor.view 5 0 8].getD 0 (.fresh 0) =
      FlatTensor.view (([[tFlatC, tFlatD]].getD 0 []).headD default).storage
        (([[tFlatC, tFlatD]].getD 0 []).headD default).offset
        (2 * ([tFlatO1].getD 0 default).numel) ↔
      ∀ k, k ≤ 0 →
        deviceEligible ([[tFlatC, tFlatD]].getD k []) ([tFlatO1].getD k default) 0 = true :=
  ((flatten_no_copy_characterization [[tFlatC, tFlatD]] [tFlatO1] 2 0
      [FlatTensor.view 5 0 8] rfl).2.2 0 (by decide)).1

theorem getD_mem {α : Type} (l : List α) (d : α) :
    ∀ n, n < l.length → l.getD n d ∈ l := by
  induction l with
  | nil => intro n h; simp at h
  | cons a t ih =>
    intro n h
    cases n with
    | zero => exact List.mem_cons_self a t
    | succ n => exact List.mem_cons_of_mem a (ih n (by simpa using h))

/-- C5: in `allgather`'s post hook, for every device `i` and rank-slot
`j`, the flat slice is copied into `outputTensors[i][j]` exactly unless
that tensor already aliases the flattened storage at the matching
offset.  The inner loop exits with `break` on the first aliasing slot,
but under the flattener's guarantees this loses nothing: a slot can
alias the staging tensor only when the staging tensor is the `no_copy`
view, and in that case every slot of the device aliases at its matching
offset, so nothing after the break needed a copy. -/
theorem allgather_post_copy_complete
    (outs : List (List ATTensor)) (ins : List ATTensor) (ws rank : Nat) (noCopy : Bool)
    (flat : List FlatTensor)
    (hf : flatten_for_scatter_gather outs ins ws rank noCopy = .ok flat)
    (i j : Nat) (hi : i < outs.length) (hj : j < (outs.headD []).length) :
    ((i, j) ∈ allgatherPost outs flat ↔
      skipCond (flat.getD i (.fresh 0)) (outs.getD i []) j = false) := by
  rw [flatten_for_scatter_gather] at hf
  by_cases hlen : outs.length = ins.length
  swap
  · rw [if_pos hlen] at hf
    exact Except.noConfusion hf
  rw [if_neg (not_not_intro hlen)] at hf
  obtain ⟨hflen, hfacts⟩ := flattenGo_facts ws outs.length rank (outs.zip ins) noCopy flat hf
  have hz : ∀ k, k < outs.length →
      (outs.zip ins).getD k ([], default) = (outs.getD k [], ins.getD k default) := by
    intro k hk
    exact zip_getD [] default outs ins k hk (by omega)
  have hiz : ∀ k, k < outs.length → k < (outs.zip ins).length := by
    intro k hk
    rw [List.length_zip]
    omega
  have hbound : (outs.headD []).length = ws * outs.length := by
    have h0 := (hfacts 0 (hiz 0 (by omega))).1
    simp only [hz 0 (by omega)] at h0
    rw [headD_eq_getD]
    exact h0
  have hleni : (outs.getD i []).length = ws * outs.length := by
    have h0 := (hfacts i (hiz i hi)).1
    simp only [hz i hi] at h0
    exact h0
  have hfi := hfacts i (hiz i hi)
  simp only [hz i hi] at hfi
  have hprop : ∀ k, k < (outs.getD i []).length →
      skipCond (flat.getD i (.fresh 0)) (outs.getD i []) k = true →
      ∀ k2, k2 < (outs.getD i []).length →
        skipCond (flat.getD i (.fresh 0)) (outs.getD i []) k2 = true := by
    intro k hk hskip k2 hk2
    rw [skipCond, Bool.and_eq_true] at hskip
    obtain ⟨halias, -⟩ := hskip
    rcases hflat : flat.getD i (.fresh 0) with ⟨s, o, sz⟩ | sz
    swap
    · rw [hflat] at halias
      exact Bool.noConfusion halias
    have hcanon := hfi.2.2.2.1 s o sz hflat
    have helig := hfi.2.2.1.mp hcanon
    have helig_i : deviceEligible (outs.getD i []) (ins.getD i default) rank = true := by
      have hki := helig.2 i (Nat.le_refl i)
      simp only [hz i hi] at hki
      exact hki
    rw [deviceEligible, Bool.and_eq_true] at helig_i
    obtain ⟨hA, -⟩ := helig_i
    rw [noCopyCheckA, noCopyCheckAGo_iff] at hA
    rw [hflat] at hcanon
    have hs : s = ((outs.getD i []).headD default).storage := by
      injection hcanon
    have hnums := hfi.2.1
    have hmemk2 : (outs.getD i []).getD k2 default ∈ outs.getD i [] :=
      getD_mem _ _ _ hk2
    have hnposlen : 0 < (outs.getD i []).length := by omega
    have hmem0 : (outs.getD i []).getD 0 default ∈ outs.getD i [] :=
      getD_mem _ _ _ hnposlen
    have hhead : (outs.getD i []).headD default = (outs.getD i []).getD 0 default :=
      headD_eq_getD _ _
    have hnk2 : ((outs.getD i []).getD k2 default).numel = (ins.getD i default).numel :=
      hnums _ hmemk2
    have hn0 : ((outs.getD i []).headD default).numel = (ins.getD i default).numel := by
      rw [hhead]
      exact hnums _ hmem0
    rw [skipCond, Bool.and_eq_true]
    constructor
    · show (s == ((outs.getD i []).getD k2 default).storage) = true
      rw [beq_iff_eq, hs, (hA k2 hk2).1]
    · rw [beq_iff_eq]
      have ho2 := (hA k2 hk2).2
      have ho0 := (hA 0 hnposlen).2
      rw [← hhead] at ho0 ⊢
      rw [ho2, ho0, hnk2, hn0]
      ring
  have hjlen : j < (outs.getD i []).length := by
    rw [hleni, ← hbound]
    exact hj
  rw [mem_allgatherPost]
  constructor
  · rintro ⟨-, hmem⟩
    rw [mem_postCopyGo] at hmem
    obtain ⟨-, -, hnone⟩ := hmem
    exact hnone j (Nat.zero_le j) (Nat.le_refl j)
  · intro hskipj
    refine ⟨hi, ?_⟩
    rw [mem_postCopyGo]
    refine ⟨Nat.zero_le j, by omega, fun k hk1 hk2 => ?_⟩
    by_contra hkk
    have hktrue : skipCond (flat.getD i (.fresh 0)) (outs.getD i []) k = true := by
      cases hc : skipCond (flat.getD i (.fresh 0)) (outs.getD i []) k with
      | false => exact absurd hc hkk
      | true => rfl
    have hall := hprop k (by omega) hktrue j hjlen
    rw [hall] at hskipj
    exact Bool.noConfusion hskipj

/-- Witness for C5 at a concrete one-device, two-rank call with a fresh
staging tensor: slot (0, 1) is copied since it does not alias. -/
theorem allgather_post_copy_complete_witness :
    ((0, 1) ∈ allgatherPost agOutsW agFlatW ↔
      skipCond (agFlatW.getD 0 (.fresh 0)) (agOutsW.getD 0 []) 1 = false) :=
  allgather_post_copy_complete agOutsW agInsW 2 0 false agFlatW rfl 0 1
    (by decide) (by decide)

theorem assocGet_append_right {α β : Type} [DecidableEq α] (l1 l2 : List (α × β)) (k : α)
    (h : ∀ p ∈ l1, p.1 ≠ k) : assocGet (l1 ++ l2) k = assocGet l2 k := by
  induction l1 with
  | nil => rfl
  | cons p t ih =>
    obtain ⟨k2, v⟩ := p
    rw [List.cons_append, assocGet_cons]
    rw [if_neg (fun hk => h (k2, v) (List.mem_cons_self _ _) hk.symm)]
    exact ih (fun q hq => h q (List.mem_cons_of_mem _ hq))

theorem assocGet_append_left {α β : Type} [DecidableEq α] (l1 l2 : List (α × β)) (k : α)
    (v : β) (h : assocGet l1 k = some v) : assocGet (l1 ++ l2) k = some v := by
  induction l1 with
  | nil => exact Option.noConfusion h
  | cons p t ih =>
    obtain ⟨k2, w⟩ := p
    rw [List.cons_append, assocGet_cons]
    rw [assocGet_cons] at h
    by_cases hk : k = k2
    · rw [if_pos hk]
      rw [if_pos hk] at h
      exact h
    · rw [if_neg hk]
      rw [if_neg hk] at h
      exact ih h

theorem assocGet_mkComms (F : Nat → CommState) (base : Nat) :
    ∀ (n : Nat) (i : Nat), i < n →
      assocGet ((List.range n).map (fun i2 => (base + i2, F i2))) (base + i) = some (F i) := by
  intro n
  induction n with
  | zero => intro i hi; omega
  | succ n ih =>
    intro i hi
    rw [List.range_succ, List.map_append]
    by_cases hin : i < n
    · exact assocGet_append_left _ _ _ _ (ih i hin)
    · have hieq : i = n := by omega
      subst hieq
      rw [assocGet_append_right]
      · simp [assocGet]
      · intro p hp
        rw [List.mem_map] at hp
        obtain ⟨j, hj, rfl⟩ := hp
        rw [List.mem_range] at hj
        simp only []
        omega

/-- C9: on a cache miss, `getNCCLComm` performs the rendezvous — the
store key is the decimal string of the pre-increment per-group counter,
rank 0 publishes the freshly minted id bytes under it, every other rank
fetches that key and errors unless the value has exactly
`NCCL_UNIQUE_ID_BYTES` bytes — and then creates one communicator per
device, communicator `i` being constructed with global size
`size * devices.length` and global rank `rank * devices.length + i`. -/
theorem getNCCLComm_first_rendezvous
    (pg : PGState) (devicesKey : String) (devices : List Nat) (freshId : List Nat)
    (hkey : devicesKey ≠ "")
    (hmiss : assocGet pg.devNCCLCommMap devicesKey = none)
    (hwf : ∀ p ∈ pg.comms, p.1 < pg.nextRef) :
    (pg.rank = 0 →
      ∃ pg2, getNCCLComm pg devicesKey devices freshId =
          .ok (pg2, (List.range devices.length).map (fun i => pg.nextRef + i)) ∧
        (∀ i, i < devices.length →
          heapGet pg2.comms (pg.nextRef + i) =
            some { uniqueId := freshId, globalRank := pg.rank * devices.length + i,
                   globalSize := pg.size * devices.length }) ∧
        storeGet pg2.store (toString pg.ncclCommCounter) = some freshId ∧
        pg2.ncclCommCounter = pg.ncclCommCounter + 1) ∧
    (pg.rank ≠ 0 →
      ((storeGet pg.store (toString pg.ncclCommCounter) = none →
          ∃ e, getNCCLComm pg devicesKey devices freshId = .error e) ∧
       (∀ v, storeGet pg.store (toString pg.ncclCommCounter) = some v →
          (v.length ≠ NCCL_UNIQUE_ID_BYTES →
            getNCCLComm pg devicesKey devices freshId =
              .error "TORCH_CHECK failed: vec.size() == NCCL_UNIQUE_ID_BYTES") ∧
          (v.length = NCCL_UNIQUE_ID_BYTES →
            ∃ pg2, getNCCLComm pg devicesKey devices freshId =
                .ok (pg2, (List.range devices.length).map (fun i => pg.nextRef + i)) ∧
              (∀ i, i < devices.length →
                heapGet pg2.comms (pg.nextRef + i) =
                  some { uniqueId := v, globalRank := pg.rank * devices.length + i,
                         globalSize := pg.size * devices.length }) ∧
              pg2.ncclCommCounter = pg.ncclCommCounter + 1)))) := by
  obtain ⟨rank, size, bw, ot, cnt, comms, nr, dev, idm, ab, used, st, log⟩ := pg
  simp only at hmiss hwf
  constructor
  · intro hr
    simp only at hr
    subst hr
    rw [getNCCLComm, if_neg hkey]
    simp only [hmiss, broadcastUniqueNCCLID, if_pos rfl]
    refine ⟨_, rfl, ?_, ?_, rfl⟩
    · intro i hi
      show assocGet (comms ++ _) (nr + i) = _
      rw [assocGet_append_right]
      · exact assocGet_mkComms
          (fun i2 => { uniqueId := freshId, globalRank := 0 * devices.length + i2,
                       globalSize := size * devices.length }) nr devices.length i hi
      · intro p hp
        have := hwf p hp
        omega
    · simp [storeGet, storeSet, assocGet]
  · intro hr
    simp only at hr
    constructor
    · intro hnone
      simp only at hnone
      have hres : getNCCLComm
          (PGState.mk rank size bw ot cnt comms nr dev idm ab used st log)
          devicesKey devices freshId =
          .error "store get blocked forever: rendezvous key never published" := by
        rw [getNCCLComm, if_neg hkey]
        simp only [hmiss, broadcastUniqueNCCLID, if_neg hr, hnone]
      exact ⟨_, hres⟩
    · intro v hv
      simp only at hv
      constructor
      · intro hne
        rw [getNCCLComm, if_neg hkey]
        simp only [hmiss, broadcastUniqueNCCLID, if_neg hr, hv, if_neg hne]
      · intro hlen
        rw [getNCCLComm, if_neg hkey]
        simp only [hmiss, broadcastUniqueNCCLID, if_neg hr, hv, if_pos hlen]
        refine ⟨_, rfl, ?_, rfl⟩
        intro i hi
        show assocGet (comms ++ _) (nr + i) = _
        rw [assocGet_append_right]
        · exact assocGet_mkComms
            (fun i2 => { uniqueId := v, globalRank := rank * devices.length + i2,
                         globalSize := size * devices.length }) nr devices.length i hi
        · intro p hp
          have := hwf p hp
          omega

/-- Witness for C9 at a fresh rank-0 group with two devices. -/
theorem getNCCLComm_first_rendezvous_witness :
    ∃ pg2, getNCCLComm pgC9 "0,1" [0, 1] [7, 7] =
        .ok (pg2, (List.range ([0, 1] : List Nat).length).map (fun i => pgC9.nextRef + i)) ∧
      (∀ i, i < ([0, 1] : List Nat).length →
        heapGet pg2.comms (pgC9.nextRef + i) =
          some { uniqueId := [7, 7], globalRank := pgC9.rank * ([0, 1] : List Nat).length + i,
                 globalSize := pgC9.size * ([0, 1] : List Nat).length }) ∧
      storeGet pg2.store (toString pgC9.ncclCommCounter) = some [7, 7] ∧
      pg2.ncclCommCounter = pgC9.ncclCommCounter + 1 :=
  (getNCCLComm_first_rendezvous pgC9 "0,1" [0, 1] [7, 7] (by decide) rfl
    (by intro p hp; exact absurd hp (List.not_mem_nil p))).1 rfl
